import Mathlib

/-!
Shallow embedding of the Tetrad quadruple-consensus code-review
orchestrator (Rust), restricted to the parts the verified claims touch:

* `src/types/responses.rs` — `Vote`, `Decision`, `ModelVote`, `Finding`,
  `EvaluationResult` (timestamps are dropped: no claim mentions them);
* `src/consensus/rules.rs` — `GoldenRule`, `StrongRule`, `WeakRule`;
* `src/consensus/aggregator.rs` — `VoteAggregator`;
* `src/cache/lru.rs` — `EvaluationCache`;
* `src/reasoning/patterns.rs` — `PatternMatcher`;
* `src/reasoning/bank.rs` — the pattern table mutations of `judge` and
  `consolidate`;
* `src/mcp/protocol.rs` and `src/mcp/server.rs` — the JSON-RPC
  request/response discipline;
* `src/mcp/tools.rs` — `get_vote_if_enabled` and `evaluate_internal`.

Rust `HashMap<String, ModelVote>` values are modelled as association
lists `List (String × ModelVote)`; every consensus computation only
consumes the multiset of values, so list order is irrelevant to the
stated theorems.  `u8`/`u32` arithmetic is modelled on `Nat` with an
explicit `% 256` where the Rust code truncates through an `as u8` cast.
SQLite `REAL` is modelled as `ℚ` (the stored values are exact ratios of
small integers).
-/

namespace Tetrad

/-- Vote of one reviewer: `Vote` in `src/types/responses.rs`. -/
inductive Vote where
  | Pass
  | Warn
  | Fail
deriving DecidableEq, Repr

/-- Final decision of an evaluation: `Decision` in `src/types/responses.rs`. -/
inductive Decision where
  | Pass
  | Revise
  | Block
deriving DecidableEq, Repr

/-- Severity of a finding: `Severity` in `src/types/responses.rs`. -/
inductive Severity where
  | Info
  | Warning
  | Error
  | Critical
deriving DecidableEq, Repr

/-- `ModelVote` in `src/types/responses.rs`.  `score` is a `u8` in Rust;
evaluation scores are in `[0, 100]`. -/
structure ModelVote where
  executor : String
  vote : Vote
  score : Nat
  reasoning : String
  issues : List String
  suggestions : List String
deriving DecidableEq, Repr

/-- `ModelVote::new` in `src/types/responses.rs`. -/
def ModelVote.new (executor : String) (vote : Vote) (score : Nat) : ModelVote :=
  { executor := executor, vote := vote, score := score,
    reasoning := "", issues := [], suggestions := [] }

/-- `Finding` in `src/types/responses.rs`. -/
structure Finding where
  severity : Severity
  category : String
  issue : String
  lines : Option (List Nat)
  suggestion : Option String
  source : String
  consensus_strength : String
deriving DecidableEq, Repr

/-- `EvaluationResult` in `src/types/responses.rs` (timestamp omitted:
no verified claim depends on it). -/
structure EvaluationResult where
  request_id : String
  decision : Decision
  score : Nat
  consensus_achieved : Bool
  votes : List (String × ModelVote)
  findings : List Finding
  feedback : String
deriving DecidableEq, Repr

/-- `EvaluationResult::success` in `src/types/responses.rs`. -/
def EvaluationResult.success (request_id : String) (score : Nat)
    (feedback : String) : EvaluationResult :=
  { request_id := request_id, decision := .Pass, score := score,
    consensus_achieved := true, votes := [], findings := [],
    feedback := feedback }

-- ═══════════════════════════════════════════════════════════════════
-- Consensus rules (`src/consensus/rules.rs`)
-- ═══════════════════════════════════════════════════════════════════

/-- The three consensus rules (`GoldenRule`, `StrongRule`, `WeakRule`
behind the `ConsensusRule` trait in `src/consensus/rules.rs`). -/
inductive ConsensusRule where
  | Golden
  | Strong
  | Weak
deriving DecidableEq, Repr

namespace ConsensusRule

/-- `min_required` of each rule. -/
def min_required : ConsensusRule → Nat
  | .Golden => 3
  | .Strong => 3
  | .Weak => 2

/-- `StrongRule::calculate_average_score`: `u32` sum of the scores
divided by the number of votes, then truncated by the `as u8` cast. -/
def calculate_average_score (votes : List ModelVote) : Nat :=
  if votes.isEmpty then 0
  else ((votes.map (·.score)).sum / votes.length) % 256

/-- `WeakRule::calculate_average_score_of` (mean over the given votes,
used on the Pass votes only), truncated by the `as u8` cast. -/
def calculate_average_score_of (votes : List ModelVote) : Nat :=
  if votes.isEmpty then 0
  else ((votes.map (·.score)).sum / votes.length) % 256

/-- `GoldenRule::evaluate`. -/
def goldenEvaluate (votes : List ModelVote) (min_score : Nat) : Decision :=
  if votes.length < 3 then .Revise
  else
    let all_pass := votes.all fun v => v.vote == .Pass && min_score ≤ v.score
    let any_fail := votes.any fun v => v.vote == .Fail
    if all_pass then .Pass
    else if any_fail then .Block
    else .Revise

/-- `StrongRule::evaluate`. -/
def strongEvaluate (votes : List ModelVote) (min_score : Nat) : Decision :=
  if votes.length < 3 then .Revise
  else
    let pass_count := votes.countP fun v => v.vote == .Pass
    let fail_count := votes.countP fun v => v.vote == .Fail
    let avg_score := calculate_average_score votes
    if pass_count = 3 ∧ min_score ≤ avg_score then .Pass
    else if fail_count = 3 then .Block
    else .Revise

/-- `WeakRule::evaluate`. -/
def weakEvaluate (votes : List ModelVote) (min_score : Nat) : Decision :=
  if votes.isEmpty then .Block
  else
    let pass_votes := votes.filter fun v => v.vote == .Pass
    let fail_count := votes.countP fun v => v.vote == .Fail
    if 2 ≤ pass_votes.length ∧ min_score ≤ calculate_average_score_of pass_votes
    then .Pass
    else if 2 ≤ fail_count then .Block
    else .Revise

/-- `evaluate` of the selected rule. -/
def evaluate (rule : ConsensusRule) (votes : List ModelVote)
    (min_score : Nat) : Decision :=
  match rule with
  | .Golden => goldenEvaluate votes min_score
  | .Strong => strongEvaluate votes min_score
  | .Weak => weakEvaluate votes min_score

/-- `is_consensus_achieved` of the selected rule.  The Golden rule only
counts a `Pass` decision as consensus; Strong and Weak count `Pass` or
`Block`. -/
def is_consensus_achieved (rule : ConsensusRule) (votes : List ModelVote)
    (min_score : Nat) : Bool :=
  if votes.length < rule.min_required then false
  else
    match rule with
    | .Golden => evaluate rule votes min_score == .Pass
    | .Strong => evaluate rule votes min_score == .Pass
                 || evaluate rule votes min_score == .Block
    | .Weak => evaluate rule votes min_score == .Pass
               || evaluate rule votes min_score == .Block

end ConsensusRule

-- ═══════════════════════════════════════════════════════════════════
-- String primitives
--
-- Rust's `str` operations are re-implemented structurally over
-- `List Char` so that every definition evaluates inside the kernel.
-- `to_lowercase` / `trim` / `is_whitespace` are Unicode-aware in Rust;
-- on the ASCII texts these claims touch the Lean counterparts agree.
-- ═══════════════════════════════════════════════════════════════════

/-- Rust `str::to_lowercase`. -/
def toLowerStr (s : String) : String :=
  String.mk (s.data.map Char.toLower)

/-- Rust `str::trim` on a character list: drop leading and trailing
whitespace. -/
def trimL (cs : List Char) : List Char :=
  ((cs.dropWhile Char.isWhitespace).reverse.dropWhile Char.isWhitespace).reverse

/-- Rust `str::trim`. -/
def trimStr (s : String) : String :=
  String.mk (trimL s.data)

/-- Rust `str::starts_with` on character lists: `startsWithL s p` is
true when `p` is a prefix of `s`. -/
def startsWithL : List Char → List Char → Bool
  | _, [] => true
  | [], _ :: _ => false
  | c :: cs, p :: ps => c == p && startsWithL cs ps

/-- Substring search on character lists (Rust `str::contains`). -/
def containsL : List Char → List Char → Bool
  | [], pat => pat.isEmpty
  | c :: rest, pat => startsWithL (c :: rest) pat || containsL rest pat

/-- Rust `str::contains` for string literals. -/
def containsStr (s pat : String) : Bool :=
  containsL s.data pat.data

/-- Rust `Vec::join(sep)` for strings. -/
def joinWith (sep : String) : List String → String
  | [] => ""
  | [s] => s
  | s :: rest => s ++ sep ++ joinWith sep rest

-- ═══════════════════════════════════════════════════════════════════
-- Vote aggregation (`src/consensus/aggregator.rs`)
-- ═══════════════════════════════════════════════════════════════════

namespace VoteAggregator

/-- `VoteAggregator::calculate_score`: integer mean of all scores,
truncated by the final `as u8` cast. -/
def calculate_score (votes : List (String × ModelVote)) : Nat :=
  if votes.isEmpty then 0
  else ((votes.map (·.2.score)).sum / votes.length) % 256

/-- `VoteAggregator::normalize_issue`: lowercase then trim. -/
def normalize_issue (issue : String) : String :=
  trimStr (toLowerStr issue)

/-- `VoteAggregator::infer_severity`: keyword-driven severity. -/
def infer_severity (issue : String) : Severity :=
  let l := toLowerStr issue
  if containsStr l "critical" || containsStr l "security"
     || containsStr l "vulnerability" || containsStr l "injection" then .Critical
  else if containsStr l "error" || containsStr l "bug"
     || containsStr l "fail" || containsStr l "crash" then .Error
  else if containsStr l "warning" || containsStr l "warn"
     || containsStr l "should" || containsStr l "consider" then .Warning
  else .Info

/-- `VoteAggregator::infer_category`: keyword-driven category. -/
def infer_category (issue : String) : String :=
  let l := toLowerStr issue
  if containsStr l "security" || containsStr l "injection"
     || containsStr l "vulnerability" || containsStr l "password"
     || containsStr l "credential" then "security"
  else if containsStr l "performance" || containsStr l "slow"
     || containsStr l "memory" || containsStr l "allocation" then "performance"
  else if containsStr l "logic" || containsStr l "bug"
     || containsStr l "incorrect" || containsStr l "wrong" then "logic"
  else if containsStr l "style" || containsStr l "convention"
     || containsStr l "naming" || containsStr l "format" then "style"
  else if containsStr l "architecture" || containsStr l "design"
     || containsStr l "pattern" || containsStr l "structure" then "architecture"
  else "general"

/-- One entry of the `issue_counts` map: normalized issue text mapped to
the reporting executors (in push order) and the severity inferred from
the first occurrence. -/
abbrev IssueCounts := List (String × (List String × Severity))

/-- `issue_counts.entry(key).or_insert_with(..).0.push(executor)`:
append the executor to the existing entry for `key`, or append a fresh
entry at the end. -/
def addIssue : IssueCounts → String → String → Severity → IssueCounts
  | [], key, executor, sev => [(key, ([executor], sev))]
  | (k, (exs, s)) :: rest, key, executor, sev =>
    if k = key then (k, (exs ++ [executor], s)) :: rest
    else (k, (exs, s)) :: addIssue rest key executor sev

/-- The `issue_counts` accumulation loop of
`VoteAggregator::extract_findings`. -/
def buildCounts (votes : List (String × ModelVote)) : IssueCounts :=
  votes.foldl
    (fun counts p =>
      p.2.issues.foldl
        (fun c issue => addIssue c (normalize_issue issue) p.1 (infer_severity issue))
        counts)
    []

/-- `VoteAggregator::find_suggestion_for_issue`, per-vote part: first a
same-index suggestion for a normalized-equal issue, then any suggestion
containing the first 20 characters of the normalized issue. -/
def suggestionFromVote (key : String) (v : ModelVote) : Option String :=
  match v.issues.enum.findSome?
      (fun q => if normalize_issue q.2 == key then v.suggestions.get? q.1 else none) with
  | some s => some s
  | none =>
    if v.suggestions.isEmpty then none
    else
      let issuePre := String.mk (key.data.take 20)
      v.suggestions.find? (fun s => containsStr (toLowerStr s) issuePre)

/-- `VoteAggregator::find_suggestion_for_issue`. -/
def find_suggestion_for_issue (votes : List (String × ModelVote))
    (issue : String) : Option String :=
  votes.findSome? (fun p => suggestionFromVote (normalize_issue issue) p.2)

/-- The sort key used by `extract_findings`
(Critical 0 < Error 1 < Warning 2 < Info 3). -/
def severity_order : Severity → Nat
  | .Critical => 0
  | .Error => 1
  | .Warning => 2
  | .Info => 3

/-- The `consensus_strength` label of `extract_findings`: the source
emits the Portuguese strings. -/
def strengthLabel (reporters : Nat) : String :=
  if 3 ≤ reporters then "forte"
  else if 2 ≤ reporters then "moderado"
  else "fraco"

/-- One finding built from an `issue_counts` entry. -/
def mkFinding (votes : List (String × ModelVote))
    (e : String × (List String × Severity)) : Finding :=
  { issue := e.1,
    severity := e.2.2,
    category := infer_category e.1,
    lines := none,
    suggestion := find_suggestion_for_issue votes e.1,
    source := joinWith ", " e.2.1,
    consensus_strength := strengthLabel e.2.1.length }

/-- `VoteAggregator::extract_findings`: group normalized issues, build
one finding per group, sort by severity (stable, like Rust `sort_by`). -/
def extract_findings (votes : List (String × ModelVote)) : List Finding :=
  List.insertionSort
    (fun a b => severity_order a.severity ≤ severity_order b.severity)
    ((buildCounts votes).map (mkFinding votes))

/-- Icon used in the consolidated feedback. -/
def voteIcon : Vote → String
  | .Pass => "✓"
  | .Warn => "⚠"
  | .Fail => "✗"

/-- Per-executor section of `VoteAggregator::consolidate_feedback`. -/
def executorSection (p : String × ModelVote) : String :=
  let v := p.2
  "**" ++ voteIcon v.vote ++ " " ++ p.1 ++ "** (score: " ++ toString v.score ++ ")\n"
  ++ (if v.reasoning.data.isEmpty then "" else "> " ++ v.reasoning ++ "\n")
  ++ (if v.issues.isEmpty then ""
      else "\nIssues:\n" ++ joinWith "" (v.issues.map (fun i => "- " ++ i ++ "\n")))
  ++ (if v.suggestions.isEmpty then ""
      else "\nSugestões:\n" ++ joinWith "" (v.suggestions.map (fun s => "- " ++ s ++ "\n")))
  ++ "\n"

/-- `VoteAggregator::consolidate_feedback`. -/
def consolidate_feedback (votes : List (String × ModelVote))
    (decision : Decision) : String :=
  let header :=
    match decision with
    | .Pass => "## Avaliação Aprovada"
    | .Revise => "## Revisão Necessária"
    | .Block => "## Avaliação Bloqueada"
  let pass_count := votes.countP fun p => p.2.vote == .Pass
  let warn_count := votes.countP fun p => p.2.vote == .Warn
  let fail_count := votes.countP fun p => p.2.vote == .Fail
  let actions :=
    match decision with
    | .Pass => "O código foi aprovado por todos os avaliadores. "
               ++ "Você pode prosseguir com a implementação.\n"
    | .Revise => "O código precisa de ajustes antes de ser aprovado. "
                 ++ "Revise os issues acima e submeta novamente.\n"
    | .Block => "O código foi bloqueado devido a problemas críticos. "
                ++ "Corrija TODOS os issues marcados como Critical ou Error antes de prosseguir.\n"
  header ++ "\n\n"
  ++ "**Votos:** " ++ toString pass_count ++ " PASS | " ++ toString warn_count
  ++ " WARN | " ++ toString fail_count ++ " FAIL\n\n"
  ++ "### Feedback dos Avaliadores\n\n"
  ++ joinWith "" (votes.map executorSection)
  ++ "### Ações Recomendadas\n\n" ++ actions

/-- `VoteAggregator::aggregate`: decision and consensus flag from the
rule, aggregate score, findings and feedback. -/
def aggregate (votes : List (String × ModelVote)) (rule : ConsensusRule)
    (min_score : Nat) (request_id : String) : EvaluationResult :=
  let vs := votes.map (·.2)
  { request_id := request_id,
    decision := rule.evaluate vs min_score,
    score := calculate_score votes,
    consensus_achieved := rule.is_consensus_achieved vs min_score,
    votes := votes,
    findings := extract_findings votes,
    feedback := consolidate_feedback votes (rule.evaluate vs min_score) }

end VoteAggregator

-- ═══════════════════════════════════════════════════════════════════
-- Helper lemmas about the truncated integer means
-- ═══════════════════════════════════════════════════════════════════

/-- When every score fits in a `u8` the `as u8` truncation of the mean
is the identity. -/
theorem calculate_average_score_eq (votes : List ModelVote)
    (h : ∀ v ∈ votes, v.score ≤ 255) (hne : ¬ votes.isEmpty) :
    ConsensusRule.calculate_average_score votes
      = (votes.map (·.score)).sum / votes.length := by
  unfold ConsensusRule.calculate_average_score
  rw [if_neg hne]
  have hlen : 0 < votes.length := by
    cases votes with
    | nil => simp at hne
    | cons a l => simp
  have hsum : (votes.map (·.score)).sum ≤ votes.length * 255 := by
    calc (votes.map (·.score)).sum
        ≤ (votes.map (·.score)).length • 255 := by
          refine List.sum_le_card_nsmul _ _ ?_
          intro x hx
          rcases List.mem_map.mp hx with ⟨v, hv, rfl⟩
          exact h v hv
      _ = votes.length * 255 := by simp [smul_eq_mul]
  have hdiv : (votes.map (·.score)).sum / votes.length ≤ 255 := by
    have := Nat.div_le_div_right (c := votes.length) hsum
    rwa [Nat.mul_div_cancel_left _ hlen] at this
  exact Nat.mod_eq_of_lt (lt_of_le_of_lt hdiv (by norm_num))

/-- Same statement for `calculate_average_score_of` (the Weak rule's
mean over Pass votes). -/
theorem calculate_average_score_of_eq (votes : List ModelVote)
    (h : ∀ v ∈ votes, v.score ≤ 255) (hne : ¬ votes.isEmpty) :
    ConsensusRule.calculate_average_score_of votes
      = (votes.map (·.score)).sum / votes.length := by
  unfold ConsensusRule.calculate_average_score_of
  rw [if_neg hne]
  have hlen : 0 < votes.length := by
    cases votes with
    | nil => simp at hne
    | cons a l => simp
  have hsum : (votes.map (·.score)).sum ≤ votes.length * 255 := by
    calc (votes.map (·.score)).sum
        ≤ (votes.map (·.score)).length • 255 := by
          refine List.sum_le_card_nsmul _ _ ?_
          intro x hx
          rcases List.mem_map.mp hx with ⟨v, hv, rfl⟩
          exact h v hv
      _ = votes.length * 255 := by simp [smul_eq_mul]
  have hdiv : (votes.map (·.score)).sum / votes.length ≤ 255 := by
    have := Nat.div_le_div_right (c := votes.length) hsum
    rwa [Nat.mul_div_cancel_left _ hlen] at this
  exact Nat.mod_eq_of_lt (lt_of_le_of_lt hdiv (by norm_num))

-- ═══════════════════════════════════════════════════════════════════
-- C1: the Strong rule
-- ═══════════════════════════════════════════════════════════════════

/-- Claim C1: for the Strong consensus rule with minimum score `m`
(scores are `u8` values, hence `≤ 255`): fewer than 3 votes give
`Revise`; with exactly 3 votes, all-Pass with integer mean of all
scores `≥ m` gives `Pass`, all-Fail gives `Block`, and every other case
gives `Revise`; and with at least 3 votes, `consensus_achieved` holds
iff the decision is `Pass` or `Block`. -/
theorem strong_rule_spec (votes : List ModelVote) (m : Nat)
    (hscore : ∀ v ∈ votes, v.score ≤ 255) :
    (votes.length < 3 → ConsensusRule.strongEvaluate votes m = .Revise)
    ∧ (votes.length = 3 →
        (((∀ v ∈ votes, v.vote = .Pass)
            ∧ m ≤ (votes.map (·.score)).sum / votes.length) →
          ConsensusRule.strongEvaluate votes m = .Pass)
        ∧ ((∀ v ∈ votes, v.vote = .Fail) →
          ConsensusRule.strongEvaluate votes m = .Block)
        ∧ ((¬ ((∀ v ∈ votes, v.vote = .Pass)
                ∧ m ≤ (votes.map (·.score)).sum / votes.length))
           → (¬ ∀ v ∈ votes, v.vote = .Fail)
           → ConsensusRule.strongEvaluate votes m = .Revise))
    ∧ (3 ≤ votes.length →
        (ConsensusRule.is_consensus_achieved .Strong votes m = true
          ↔ (ConsensusRule.strongEvaluate votes m = .Pass
             ∨ ConsensusRule.strongEvaluate votes m = .Block))) := by
  have hne3 : votes.length = 3 → ¬ votes.isEmpty := by
    intro h3
    cases votes with
    | nil => simp at h3
    | cons a l => simp
  have hpassAll : votes.length = 3 →
      ((votes.countP fun v => v.vote == .Pass) = 3
        ↔ ∀ v ∈ votes, v.vote = .Pass) := by
    intro h3
    rw [← h3]
    constructor
    · intro h v hv
      have := List.countP_eq_length.mp h v hv
      simpa using this
    · intro h
      exact List.countP_eq_length.mpr fun v hv => by simpa using h v hv
  have hfailAll : votes.length = 3 →
      ((votes.countP fun v => v.vote == .Fail) = 3
        ↔ ∀ v ∈ votes, v.vote = .Fail) := by
    intro h3
    rw [← h3]
    constructor
    · intro h v hv
      have := List.countP_eq_length.mp h v hv
      simpa using this
    · intro h
      exact List.countP_eq_length.mpr fun v hv => by simpa using h v hv
  refine ⟨?_, ?_, ?_⟩
  · intro hlt
    unfold ConsensusRule.strongEvaluate
    rw [if_pos hlt]
  · intro h3
    have havg := calculate_average_score_eq votes hscore (hne3 h3)
    have hnlt : ¬ votes.length < 3 := by omega
    refine ⟨?_, ?_, ?_⟩
    · rintro ⟨hall, hm⟩
      unfold ConsensusRule.strongEvaluate
      rw [if_neg hnlt]
      simp only []
      rw [if_pos ⟨(hpassAll h3).mpr hall, havg ▸ hm⟩]
    · intro hall
      unfold ConsensusRule.strongEvaluate
      rw [if_neg hnlt]
      simp only []
      have hnopass : ¬ ((votes.countP fun v => v.vote == .Pass) = 3
          ∧ m ≤ ConsensusRule.calculate_average_score votes) := by
        rintro ⟨hp, -⟩
        have := (hpassAll h3).mp hp
        have hv : votes ≠ [] := by
          cases votes with
          | nil => simp at h3
          | cons a l => simp
        rcases List.exists_mem_of_ne_nil votes hv with ⟨v, hvmem⟩
        have h1 := this v hvmem
        have h2 := hall v hvmem
        rw [h1] at h2
        exact Vote.noConfusion h2
      rw [if_neg hnopass, if_pos ((hfailAll h3).mpr hall)]
    · intro hnp hnf
      unfold ConsensusRule.strongEvaluate
      rw [if_neg hnlt]
      simp only []
      have hnopass : ¬ ((votes.countP fun v => v.vote == .Pass) = 3
          ∧ m ≤ ConsensusRule.calculate_average_score votes) := by
        rintro ⟨hp, hm⟩
        exact hnp ⟨(hpassAll h3).mp hp, havg ▸ hm⟩
      have hnofail : ¬ (votes.countP fun v => v.vote == .Fail) = 3 := by
        intro hf
        exact hnf ((hfailAll h3).mp hf)
      rw [if_neg hnopass, if_neg hnofail]
  · intro hge
    unfold ConsensusRule.is_consensus_achieved
    have hnlt : ¬ votes.length < ConsensusRule.min_required .Strong := by
      simp only [ConsensusRule.min_required]
      omega
    rw [if_neg hnlt]
    simp only [ConsensusRule.evaluate]
    constructor
    · intro h
      rcases Bool.or_eq_true_iff.mp h with h | h
      · exact Or.inl (by simpa using h)
      · exact Or.inr (by simpa using h)
    · intro h
      rcases h with h | h
      · exact Bool.or_eq_true_iff.mpr (Or.inl (by simp [h]))
      · exact Bool.or_eq_true_iff.mpr (Or.inr (by simp [h]))

/-- Three all-Pass sample votes (the Strong-rule unit test of
`src/consensus/rules.rs`). -/
def sampleStrongVotes : List ModelVote :=
  [ModelVote.new "Codex" .Pass 85, ModelVote.new "Gemini" .Pass 90,
   ModelVote.new "Qwen" .Pass 88]

/-- Witness for C1: instantiating the theorem at the source's own
unit-test votes yields the `Pass` decision. -/
theorem strong_rule_spec_witness :
    ConsensusRule.strongEvaluate sampleStrongVotes 70 = .Pass :=
  ((strong_rule_spec sampleStrongVotes 70 (by decide)).2.1 (by decide)).1
    ⟨by decide, by decide⟩

-- ═══════════════════════════════════════════════════════════════════
-- C3: consensus_achieved forces Pass or Block
-- ═══════════════════════════════════════════════════════════════════

/-- Claim C3: for every vote set and every consensus rule (Golden,
Strong, Weak), if the aggregator's result has `consensus_achieved =
true` then its decision is `Pass` or `Block`, never `Revise`. -/
theorem consensus_achieved_pass_or_block (rule : ConsensusRule)
    (votes : List (String × ModelVote)) (m : Nat) (rid : String)
    (h : (VoteAggregator.aggregate votes rule m rid).consensus_achieved = true) :
    (VoteAggregator.aggregate votes rule m rid).decision = .Pass
    ∨ (VoteAggregator.aggregate votes rule m rid).decision = .Block := by
  simp only [VoteAggregator.aggregate] at h ⊢
  unfold ConsensusRule.is_consensus_achieved at h
  split at h
  · exact absurd h (by simp)
  · cases rule with
    | Golden =>
      left
      have : ConsensusRule.evaluate .Golden (votes.map (·.2)) m = .Pass := by
        simpa using h
      simpa [ConsensusRule.evaluate] using this
    | Strong =>
      rcases Bool.or_eq_true_iff.mp h with h' | h'
      · left; simpa [ConsensusRule.evaluate] using (by simpa using h' :
          ConsensusRule.evaluate .Strong (votes.map (·.2)) m = .Pass)
      · right; simpa [ConsensusRule.evaluate] using (by simpa using h' :
          ConsensusRule.evaluate .Strong (votes.map (·.2)) m = .Block)
    | Weak =>
      rcases Bool.or_eq_true_iff.mp h with h' | h'
      · left; simpa [ConsensusRule.evaluate] using (by simpa using h' :
          ConsensusRule.evaluate .Weak (votes.map (·.2)) m = .Pass)
      · right; simpa [ConsensusRule.evaluate] using (by simpa using h' :
          ConsensusRule.evaluate .Weak (votes.map (·.2)) m = .Block)

/-- The sample vote map of the aggregator's own `test_aggregate_pass`. -/
def sampleVoteMap : List (String × ModelVote) :=
  [("Codex", ModelVote.new "Codex" .Pass 85),
   ("Gemini", ModelVote.new "Gemini" .Pass 90),
   ("Qwen", ModelVote.new "Qwen" .Pass 88)]

/-- Witness for C3 at the aggregator's own unit-test vote map under the
Strong rule. -/
theorem consensus_achieved_pass_or_block_witness :
    (VoteAggregator.aggregate sampleVoteMap .Strong 70 "test-123").decision = .Pass
    ∨ (VoteAggregator.aggregate sampleVoteMap .Strong 70 "test-123").decision = .Block :=
  consensus_achieved_pass_or_block .Strong sampleVoteMap 70 "test-123" (by decide)

-- ═══════════════════════════════════════════════════════════════════
-- C4: the Weak rule
-- ═══════════════════════════════════════════════════════════════════

/-- Claim C4: for the Weak consensus rule with minimum score `m`
(scores are `u8` values, hence `≤ 255`): empty votes give `Block`;
otherwise at least 2 Pass votes whose integer mean (over the Pass votes
only) is `≥ m` give `Pass`; otherwise at least 2 Fail votes give
`Block`; otherwise `Revise`.  In particular, exactly 2 Pass plus 1 Fail
with the pass-mean below `m` yields `Revise`, not `Block`. -/
theorem weak_rule_spec (votes : List ModelVote) (m : Nat)
    (hscore : ∀ v ∈ votes, v.score ≤ 255) :
    (ConsensusRule.weakEvaluate votes m =
      if votes.isEmpty then .Block
      else if 2 ≤ (votes.filter fun v => v.vote == .Pass).length
              ∧ m ≤ ((votes.filter fun v => v.vote == .Pass).map (·.score)).sum
                    / (votes.filter fun v => v.vote == .Pass).length
           then .Pass
      else if 2 ≤ votes.countP fun v => v.vote == .Fail then .Block
      else .Revise)
    ∧ (∀ s1 s2 s3 : Nat, s1 ≤ 255 → s2 ≤ 255 → (s1 + s2) / 2 < m →
        ConsensusRule.weakEvaluate
          [ModelVote.new "a" .Pass s1, ModelVote.new "b" .Pass s2,
           ModelVote.new "c" .Fail s3] m = .Revise) := by
  constructor
  · by_cases hemp : votes.isEmpty
    · simp [ConsensusRule.weakEvaluate, hemp]
    · have hfilter : ∀ v ∈ votes.filter (fun v => v.vote == .Pass), v.score ≤ 255 :=
        fun v hv => hscore v (List.mem_of_mem_filter hv)
      by_cases h2 : 2 ≤ (votes.filter fun v => v.vote == .Pass).length
      · have hne : ¬ (votes.filter fun v => v.vote == .Pass).isEmpty := by
          intro hc
          rw [List.isEmpty_iff] at hc
          rw [hc] at h2
          simp at h2
        have havg := calculate_average_score_of_eq _ hfilter hne
        simp only [ConsensusRule.weakEvaluate, hemp, if_false, havg]
      · simp only [ConsensusRule.weakEvaluate, hemp, if_false]
        have hc1 : ¬ (2 ≤ (votes.filter fun v => v.vote == .Pass).length
            ∧ m ≤ ConsensusRule.calculate_average_score_of
                    (votes.filter fun v => v.vote == .Pass)) := fun hc => h2 hc.1
        have hc2 : ¬ (2 ≤ (votes.filter fun v => v.vote == .Pass).length
            ∧ m ≤ ((votes.filter fun v => v.vote == .Pass).map (·.score)).sum
                  / (votes.filter fun v => v.vote == .Pass).length) := fun hc => h2 hc.1
        rw [if_neg hc1, if_neg hc2]
  · intro s1 s2 s3 h1 h2 hm
    have hlt : (s1 + s2) / 2 < 256 := by omega
    simp [ConsensusRule.weakEvaluate, ConsensusRule.calculate_average_score_of,
      ModelVote.new, Nat.mod_eq_of_lt hlt]
    omega

/-- Witness for C4: instantiating the theorem at the Weak-rule sample
of the source's `test_weak_rule_two_pass` shows the 2-Pass majority
decision. -/
theorem weak_rule_spec_witness :
    ConsensusRule.weakEvaluate
      [ModelVote.new "Codex" .Pass 85, ModelVote.new "Gemini" .Pass 90,
       ModelVote.new "Qwen" .Fail 30] 70 =
      if ([ModelVote.new "Codex" .Pass 85, ModelVote.new "Gemini" .Pass 90,
           ModelVote.new "Qwen" .Fail 30] : List ModelVote).isEmpty then .Block
      else if 2 ≤ (([ModelVote.new "Codex" .Pass 85, ModelVote.new "Gemini" .Pass 90,
               ModelVote.new "Qwen" .Fail 30] : List ModelVote).filter
                 fun v => v.vote == .Pass).length
              ∧ 70 ≤ ((([ModelVote.new "Codex" .Pass 85, ModelVote.new "Gemini" .Pass 90,
                   ModelVote.new "Qwen" .Fail 30] : List ModelVote).filter
                     (fun v => v.vote == .Pass)).map (·.score)).sum
                    / (([ModelVote.new "Codex" .Pass 85, ModelVote.new "Gemini" .Pass 90,
                   ModelVote.new "Qwen" .Fail 30] : List ModelVote).filter
                     fun v => v.vote == .Pass).length
           then .Pass
      else if 2 ≤ ([ModelVote.new "Codex" .Pass 85, ModelVote.new "Gemini" .Pass 90,
               ModelVote.new "Qwen" .Fail 30] : List ModelVote).countP
                 fun v => v.vote == .Fail then .Block
      else .Revise :=
  (weak_rule_spec
    [ModelVote.new "Codex" .Pass 85, ModelVote.new "Gemini" .Pass 90,
     ModelVote.new "Qwen" .Fail 30] 70 (by decide)).1

-- ═══════════════════════════════════════════════════════════════════
-- Pattern matcher (`src/reasoning/patterns.rs`)
-- ═══════════════════════════════════════════════════════════════════

namespace PatternMatcher

/-- The filter of `PatternMatcher::normalize_code`, applied to an
already-trimmed line: keep it iff it is non-empty and does not start
with `//`, `#`, `/*`, `*` or `*/`. -/
def keepLine (line : String) : Bool :=
  !line.data.isEmpty
  && !startsWithL line.data ['/', '/']
  && !startsWithL line.data ['#']
  && !startsWithL line.data ['/', '*']
  && !startsWithL line.data ['*']
  && !startsWithL line.data ['*', '/']

/-- `PatternMatcher::normalize_code` over the list of source lines
(Rust `code.lines()`): trim each line, keep the lines `keepLine`
accepts, join with newline. -/
def normalize_code (lines : List String) : String :=
  joinWith "\n" ((lines.map trimStr).filter keepLine)

/-- `PatternMatcher::compute_signature`: hex SHA-256 of the normalized
code.  The SHA-256-and-hex-encode pipeline comes from the external
`sha2`/`hex` crates, so it is taken as a parameter `h`; the theorems
quantify over every `h`, which only strengthens them. -/
def compute_signature (h : String → String) (lines : List String) : String :=
  h (normalize_code lines)

/-- A junk line: blank after trimming, or beginning (after trimming)
with one of the comment leaders — exactly what `normalize_code` drops. -/
def junkLine (line : String) : Bool :=
  !keepLine (trimStr line)

/-- `InsertJunk ls ls'` says `ls'` is `ls` with junk lines inserted at
arbitrary positions. -/
inductive InsertJunk : List String → List String → Prop
  | nil : InsertJunk [] []
  | keep (l : String) {ls ls' : List String} :
      InsertJunk ls ls' → InsertJunk (l :: ls) (l :: ls')
  | junk (l : String) {ls ls' : List String} :
      junkLine l = true → InsertJunk ls ls' → InsertJunk ls (l :: ls')

/-- Inserting junk lines leaves the trimmed-and-filtered line list
unchanged. -/
theorem filter_insertJunk {ls ls' : List String} (h : InsertJunk ls ls') :
    (ls'.map trimStr).filter keepLine = (ls.map trimStr).filter keepLine := by
  induction h with
  | nil => rfl
  | keep l _ ih =>
    simp only [List.map_cons, List.filter_cons, ih]
  | junk l hjunk _ ih =>
    have hkeep : keepLine (trimStr l) = false := by
      unfold junkLine at hjunk
      cases hk : keepLine (trimStr l) with
      | false => rfl
      | true => rw [hk] at hjunk; simp at hjunk
    simp [List.map_cons, List.filter_cons, hkeep, ih]

end PatternMatcher

/-- Claim C8: inserting lines that are blank after trimming, or that
after trimming begin with //, #, /\*, \* or \*/, never changes the
`PatternMatcher` signature; the normalization keeps exactly the
non-junk lines trimmed, and the signature is the (abstracted) hex
SHA-256 of the normalized text. -/
theorem signature_insensitive_to_junk (h : String → String)
    (ls ls' : List String) (hins : PatternMatcher.InsertJunk ls ls') :
    PatternMatcher.compute_signature h ls' = PatternMatcher.compute_signature h ls
    ∧ PatternMatcher.normalize_code ls'
        = joinWith "\n" ((ls.map trimStr).filter PatternMatcher.keepLine)
    ∧ PatternMatcher.compute_signature h ls = h (PatternMatcher.normalize_code ls) := by
  have hf := PatternMatcher.filter_insertJunk hins
  refine ⟨?_, ?_, rfl⟩
  · unfold PatternMatcher.compute_signature PatternMatcher.normalize_code
    rw [hf]
  · unfold PatternMatcher.normalize_code
    rw [hf]

/-- Witness for C8: inserting a line comment and a blank line around
the single code line leaves the signature unchanged (with `h` the
identity function). -/
theorem signature_insensitive_to_junk_witness :
    PatternMatcher.compute_signature (fun s => s) ["// note", "fn main()", "   "]
      = PatternMatcher.compute_signature (fun s => s) ["fn main()"] :=
  (signature_insensitive_to_junk (fun s => s) ["fn main()"]
    ["// note", "fn main()", "   "]
    (.junk _ (by decide) (.keep _ (.junk _ (by decide) .nil)))).1

-- ═══════════════════════════════════════════════════════════════════
-- Evaluation cache (`src/cache/lru.rs`)
-- ═══════════════════════════════════════════════════════════════════

/-- `CachedResult`: a cached evaluation plus its insertion timestamp
(modelled as a `Nat` clock value). -/
structure CachedResult where
  result : EvaluationResult
  cached_at : Nat
deriving DecidableEq, Repr

/-- `CachedResult::is_expired`: elapsed time since `cached_at` strictly
above the TTL.  When the clock reads earlier than `cached_at`,
`signed_duration_since(..).to_std()` fails and the Rust code substitutes
`Duration::MAX`, which always exceeds a configured TTL, so the entry
counts as expired. -/
def CachedResult.is_expired (c : CachedResult) (ttl now : Nat) : Bool :=
  if now < c.cached_at then true
  else ttl < now - c.cached_at

/-- `EvaluationCache`: the `lru::LruCache` is modelled as an
association list in recency order, most recently used first, plus the
TTL and the hit/miss counters. -/
structure EvaluationCache where
  entries : List (String × CachedResult)
  ttl : Nat
  hits : Nat
  misses : Nat
deriving DecidableEq, Repr

namespace EvaluationCache

/-- `LruCache::peek`: look the key up without touching recency. -/
def peek (entries : List (String × CachedResult)) (key : String) :
    Option CachedResult :=
  (entries.find? (fun e => e.1 == key)).map (·.2)

/-- `LruCache::pop`: remove the entry for the key, keeping the relative
order of the others. -/
def removeKey (entries : List (String × CachedResult)) (key : String) :
    List (String × CachedResult) :=
  entries.eraseP (fun e => e.1 == key)

/-- `EvaluationCache::get`: peek to test expiry without touching the
LRU; pop expired entries and count a miss; on a live entry count a hit
and promote it to most recently used via `LruCache::get`. -/
def get (c : EvaluationCache) (key : String) (now : Nat) :
    Option EvaluationResult × EvaluationCache :=
  let is_expired := (peek c.entries key).map (fun e => e.is_expired c.ttl now)
  match is_expired with
  | some true =>
    (none, { c with entries := removeKey c.entries key, misses := c.misses + 1 })
  | some false =>
    match c.entries.find? (fun e => e.1 == key) with
    | some e =>
      (some e.2.result,
       { c with entries := e :: removeKey c.entries key, hits := c.hits + 1 })
    | none => (none, { c with hits := c.hits + 1 })
  | none => (none, { c with misses := c.misses + 1 })

end EvaluationCache

/-- Claim C5: `get(key)` returns the stored result iff the key is
present and the entry's age is at most the TTL (a clock earlier than
the insertion time counts as expired, mirroring the `Duration::MAX`
fallback); an expired entry is removed by the read and counted as a
miss; an absent key is a miss that leaves the entries untouched; the
LRU recency order is updated only on a hit, which promotes the entry to
most recently used. -/
theorem cache_get_spec (c : EvaluationCache) (key : String) (now : Nat) :
    (∀ r, (EvaluationCache.get c key now).1 = some r ↔
      ∃ e, EvaluationCache.peek c.entries key = some e ∧ e.result = r
           ∧ e.cached_at ≤ now ∧ now - e.cached_at ≤ c.ttl)
    ∧ (∀ e, EvaluationCache.peek c.entries key = some e →
        (now < e.cached_at ∨ c.ttl < now - e.cached_at) →
        (EvaluationCache.get c key now).1 = none
        ∧ (EvaluationCache.get c key now).2.entries
            = EvaluationCache.removeKey c.entries key
        ∧ (EvaluationCache.get c key now).2.misses = c.misses + 1
        ∧ (EvaluationCache.get c key now).2.hits = c.hits)
    ∧ (EvaluationCache.peek c.entries key = none →
        (EvaluationCache.get c key now).1 = none
        ∧ (EvaluationCache.get c key now).2.entries = c.entries
        ∧ (EvaluationCache.get c key now).2.misses = c.misses + 1
        ∧ (EvaluationCache.get c key now).2.hits = c.hits)
    ∧ (∀ e, EvaluationCache.peek c.entries key = some e →
        e.cached_at ≤ now → now - e.cached_at ≤ c.ttl →
        (EvaluationCache.get c key now).1 = some e.result
        ∧ (EvaluationCache.get c key now).2.entries
            = (key, e) :: EvaluationCache.removeKey c.entries key
        ∧ (EvaluationCache.get c key now).2.hits = c.hits + 1
        ∧ (EvaluationCache.get c key now).2.misses = c.misses) := by
  have hpeekfind : ∀ e, EvaluationCache.peek c.entries key = some e →
      c.entries.find? (fun x => x.1 == key) = some (key, e) := by
    intro e he
    unfold EvaluationCache.peek at he
    cases hf : c.entries.find? (fun x => x.1 == key) with
    | none => rw [hf] at he; simp at he
    | some p =>
      rw [hf] at he
      simp at he
      have hkey := List.find?_some hf
      simp at hkey
      cases p with
      | mk k v => simp at hkey he; rw [hkey, he]
  have hexp_iff : ∀ e : CachedResult, e.is_expired c.ttl now = true ↔
      (now < e.cached_at ∨ c.ttl < now - e.cached_at) := by
    intro e
    unfold CachedResult.is_expired
    split
    · simp; omega
    · simp; omega
  refine ⟨?_, ?_, ?_, ?_⟩
  · intro r
    constructor
    · intro h
      unfold EvaluationCache.get at h
      cases hp : EvaluationCache.peek c.entries key with
      | none => rw [hp] at h; simp at h
      | some e =>
        rw [hp] at h
        simp only [Option.map_some'] at h
        cases hex : e.is_expired c.ttl now with
        | true => rw [hex] at h; simp at h
        | false =>
          rw [hex] at h
          rw [hpeekfind e hp] at h
          simp at h
          refine ⟨e, rfl, h, ?_, ?_⟩
          · by_contra hc
            have : e.is_expired c.ttl now = true := (hexp_iff e).mpr (Or.inl (by omega))
            rw [this] at hex; cases hex
          · by_contra hc
            have : e.is_expired c.ttl now = true := (hexp_iff e).mpr (Or.inr (by omega))
            rw [this] at hex; cases hex
    · rintro ⟨e, hp, hr, hle, httl⟩
      have hex : e.is_expired c.ttl now = false := by
        cases hx : e.is_expired c.ttl now with
        | false => rfl
        | true =>
          rcases (hexp_iff e).mp hx with h | h
          · omega
          · omega
      unfold EvaluationCache.get
      rw [hp]
      simp only [Option.map_some', hex]
      rw [hpeekfind e hp]
      simp [hr]
  · intro e hp hstale
    have hex : e.is_expired c.ttl now = true := (hexp_iff e).mpr hstale
    unfold EvaluationCache.get
    rw [hp]
    simp [hex]
  · intro hp
    unfold EvaluationCache.get
    rw [hp]
    simp
  · intro e hp hle httl
    have hex : e.is_expired c.ttl now = false := by
      cases hx : e.is_expired c.ttl now with
      | false => rfl
      | true =>
        rcases (hexp_iff e).mp hx with h | h
        · omega
        · omega
    unfold EvaluationCache.get
    rw [hp]
    simp only [Option.map_some', hex]
    rw [hpeekfind e hp]
    simp

/-- A concrete one-entry cache for the witness (TTL 60, entry cached at
clock 100). -/
def sampleCache : EvaluationCache :=
  { entries := [("k1", { result := EvaluationResult.success "test-123" 85 "fb",
                         cached_at := 100 })],
    ttl := 60, hits := 0, misses := 0 }

/-- Witness for C5: reading the live entry of `sampleCache` at clock
130 is a hit that returns the stored result. -/
theorem cache_get_spec_witness :
    (EvaluationCache.get sampleCache "k1" 130).1
      = some (EvaluationResult.success "test-123" 85 "fb")
    ∧ (EvaluationCache.get sampleCache "k1" 130).2.hits = sampleCache.hits + 1 :=
  ⟨((cache_get_spec sampleCache "k1" 130).2.2.2
      { result := EvaluationResult.success "test-123" 85 "fb", cached_at := 100 }
      (by decide) (by decide) (by decide)).1,
   ((cache_get_spec sampleCache "k1" 130).2.2.2
      { result := EvaluationResult.success "test-123" 85 "fb", cached_at := 100 }
      (by decide) (by decide) (by decide)).2.2.1⟩

-- ═══════════════════════════════════════════════════════════════════
-- C6: consensus strength of findings
-- ═══════════════════════════════════════════════════════════════════

namespace VoteAggregator

/-- Number of issue occurrences across all votes whose normalized text
is `key` — with each reviewer listing an issue at most once, the number
of reviewers that reported it. -/
def occCount (votes : List (String × ModelVote)) (key : String) : Nat :=
  (votes.map (fun p => p.2.issues.countP (fun i => normalize_issue i == key))).sum

/-- Length of the executor list recorded for `key` in an `issue_counts`
map (0 when absent). -/
def countsLen : IssueCounts → String → Nat
  | [], _ => 0
  | (k, (exs, _)) :: rest, key => if k = key then exs.length else countsLen rest key

theorem countsLen_addIssue (c : IssueCounts) (k ex : String) (sev : Severity)
    (key : String) :
    countsLen (addIssue c k ex sev) key
      = countsLen c key + (if k = key then 1 else 0) := by
  induction c with
  | nil =>
    simp only [addIssue, countsLen]
    by_cases h : k = key <;> simp [h]
  | cons hd tl ih =>
    obtain ⟨k', exs, s⟩ := hd
    by_cases hk : k' = k
    · subst hk
      simp only [addIssue, if_pos rfl, countsLen]
      by_cases hkey : k' = key <;> simp [hkey]
    · simp only [addIssue, if_neg hk, countsLen]
      by_cases hkey : k' = key
      · subst hkey
        have : ¬ k = k' := fun h => hk h.symm
        simp [this]
      · simp [hkey, ih]

theorem countsLen_foldIssues (issues : List String) (c : IssueCounts)
    (ex : String) (key : String) :
    countsLen
      (issues.foldl
        (fun c issue => addIssue c (normalize_issue issue) ex (infer_severity issue)) c)
      key
      = countsLen c key + issues.countP (fun i => normalize_issue i == key) := by
  induction issues generalizing c with
  | nil => simp
  | cons i rest ih =>
    simp only [List.foldl_cons, List.countP_cons, ih, countsLen_addIssue]
    by_cases h : normalize_issue i = key
    · simp [h]
      omega
    · have hb : (normalize_issue i == key) = false := by
        simp [h]
      simp [h, hb]

theorem countsLen_buildCounts (votes : List (String × ModelVote)) (key : String) :
    countsLen (buildCounts votes) key = occCount votes key := by
  suffices h : ∀ (vs : List (String × ModelVote)) (c : IssueCounts),
      countsLen
        (vs.foldl
          (fun counts p =>
            p.2.issues.foldl
              (fun c issue =>
                addIssue c (normalize_issue issue) p.1 (infer_severity issue))
              counts)
          c) key
        = countsLen c key + occCount vs key by
    have := h votes []
    simpa [buildCounts, countsLen] using this
  intro vs
  induction vs with
  | nil => intro c; simp [occCount]
  | cons p rest ih =>
    intro c
    simp only [List.foldl_cons, ih, countsLen_foldIssues, occCount, List.map_cons,
      List.sum_cons]
    omega

/-- Membership in the keys of an `issue_counts` map after `addIssue`. -/
theorem mem_keys_addIssue (c : IssueCounts) (k ex : String) (sev : Severity)
    (key : String) :
    key ∈ (addIssue c k ex sev).map (·.1)
      ↔ key ∈ c.map (·.1) ∨ key = k := by
  induction c with
  | nil => simp [addIssue]
  | cons hd tl ih =>
    obtain ⟨k', exs, s⟩ := hd
    by_cases hk : k' = k
    · simp only [addIssue, if_pos hk, List.map_cons, List.mem_cons]
      subst hk
      tauto
    · simp only [addIssue, if_neg hk, List.map_cons, List.mem_cons, ih]
      tauto

/-- `addIssue` keeps the keys pairwise distinct. -/
theorem nodup_keys_addIssue (c : IssueCounts) (k ex : String) (sev : Severity)
    (h : (c.map (·.1)).Nodup) : ((addIssue c k ex sev).map (·.1)).Nodup := by
  induction c with
  | nil => simp [addIssue]
  | cons hd tl ih =>
    obtain ⟨k', exs, s⟩ := hd
    simp only [List.map_cons, List.nodup_cons] at h
    by_cases hk : k' = k
    · simp only [addIssue, if_pos hk, List.map_cons, List.nodup_cons]
      exact h
    · simp only [addIssue, if_neg hk, List.map_cons, List.nodup_cons]
      refine ⟨?_, ih h.2⟩
      intro hc
      rcases (mem_keys_addIssue tl k ex sev k').mp hc with hmem | heq
      · exact h.1 hmem
      · exact hk heq

/-- `addIssue` keeps every executor list non-empty. -/
theorem addIssue_exec_pos (c : IssueCounts) (k ex : String) (sev : Severity)
    (h : ∀ e ∈ c, 1 ≤ e.2.1.length) :
    ∀ e ∈ addIssue c k ex sev, 1 ≤ e.2.1.length := by
  induction c with
  | nil =>
    intro e he
    have heq : e = (k, ([ex], sev)) := by
      simpa [addIssue] using he
    subst heq
    simp
  | cons hd tl ih =>
    obtain ⟨k', exs, s⟩ := hd
    intro e he
    by_cases hk : k' = k
    · rw [addIssue, if_pos hk] at he
      rcases List.mem_cons.mp he with he | he
      · subst he; simp
      · exact h e (List.mem_cons_of_mem _ he)
    · rw [addIssue, if_neg hk] at he
      rcases List.mem_cons.mp he with he | he
      · subst he; exact h _ (List.mem_cons_self _ _)
      · exact ih (fun x hx => h x (List.mem_cons_of_mem _ hx)) e he

/-- Folding one vote's issue list into the map keeps the keys
pairwise distinct. -/
theorem nodup_keys_foldIssues (issues : List String) :
    ∀ (c : IssueCounts) (ex : String), (c.map (·.1)).Nodup →
    (((issues.foldl
        (fun c issue => addIssue c (normalize_issue issue) ex (infer_severity issue))
        c)).map (·.1)).Nodup := by
  induction issues with
  | nil => intro c ex h; exact h
  | cons i rest ih =>
    intro c ex h
    simp only [List.foldl_cons]
    exact ih _ ex (nodup_keys_addIssue c _ _ _ h)

/-- Folding one vote's issue list into the map keeps executor lists
non-empty. -/
theorem exec_pos_foldIssues (issues : List String) :
    ∀ (c : IssueCounts) (ex : String), (∀ e ∈ c, 1 ≤ e.2.1.length) →
    ∀ e ∈ issues.foldl
        (fun c issue => addIssue c (normalize_issue issue) ex (infer_severity issue))
        c, 1 ≤ e.2.1.length := by
  induction issues with
  | nil => intro c ex h; exact h
  | cons i rest ih =>
    intro c ex h
    simp only [List.foldl_cons]
    exact ih _ ex (addIssue_exec_pos c _ _ _ h)

/-- The `issue_counts` map of `buildCounts` has pairwise-distinct keys
and non-empty executor lists. -/
theorem buildCounts_invariant (votes : List (String × ModelVote)) :
    ((buildCounts votes).map (·.1)).Nodup
    ∧ ∀ e ∈ buildCounts votes, 1 ≤ e.2.1.length := by
  suffices h : ∀ (vs : List (String × ModelVote)) (c : IssueCounts),
      (c.map (·.1)).Nodup → (∀ e ∈ c, 1 ≤ e.2.1.length) →
      ((vs.foldl
          (fun counts p =>
            p.2.issues.foldl
              (fun c issue =>
                addIssue c (normalize_issue issue) p.1 (infer_severity issue))
              counts)
          c).map (·.1)).Nodup
        ∧ ∀ e ∈ vs.foldl
            (fun counts p =>
              p.2.issues.foldl
                (fun c issue =>
                  addIssue c (normalize_issue issue) p.1 (infer_severity issue))
                counts)
            c, 1 ≤ e.2.1.length by
    exact h votes [] (by simp) (by simp)
  intro vs
  induction vs with
  | nil => intro c h1 h2; exact ⟨h1, h2⟩
  | cons p rest ih =>
    intro c h1 h2
    simp only [List.foldl_cons]
    exact ih _ (nodup_keys_foldIssues p.2.issues c p.1 h1)
      (exec_pos_foldIssues p.2.issues c p.1 h2)

/-- With distinct keys, `countsLen` at a member entry's key is that
entry's executor-list length. -/
theorem countsLen_of_mem :
    ∀ (c : IssueCounts), (c.map (·.1)).Nodup →
    ∀ e ∈ c, countsLen c e.1 = e.2.1.length := by
  intro c
  induction c with
  | nil => intro _ e he; cases he
  | cons hd tl ih =>
    intro hnd e he
    obtain ⟨k', exs, s⟩ := hd
    simp only [List.map_cons, List.nodup_cons] at hnd
    rcases List.mem_cons.mp he with he | he
    · subst he
      simp [countsLen]
    · have hne : ¬ k' = e.1 := by
        intro h
        exact hnd.1 (h ▸ (List.mem_map.mpr ⟨e, he, rfl⟩))
      simp only [countsLen, if_neg hne]
      exact ih hnd.2 e he

end VoteAggregator

/-- Claim C6 (amended): every finding produced by
`VoteAggregator::extract_findings` carries a `consensus_strength` that
is the Portuguese label "forte" when the finding's normalized issue was
reported 3 or more times across the votes, "moderado" when exactly 2
times, and "fraco" when exactly 1 time (and every finding's issue was
reported at least once). -/
theorem finding_consensus_strength (votes : List (String × ModelVote))
    (f : Finding) (hf : f ∈ VoteAggregator.extract_findings votes) :
    f.consensus_strength
      = (if 3 ≤ VoteAggregator.occCount votes f.issue then "forte"
         else if 2 ≤ VoteAggregator.occCount votes f.issue then "moderado"
         else "fraco")
    ∧ 1 ≤ VoteAggregator.occCount votes f.issue := by
  have hmem : f ∈ (VoteAggregator.buildCounts votes).map
      (VoteAggregator.mkFinding votes) := by
    have hperm := List.perm_insertionSort
      (fun a b : Finding =>
        VoteAggregator.severity_order a.severity
          ≤ VoteAggregator.severity_order b.severity)
      ((VoteAggregator.buildCounts votes).map (VoteAggregator.mkFinding votes))
    exact hperm.mem_iff.mp hf
  rcases List.mem_map.mp hmem with ⟨e, hec, rfl⟩
  obtain ⟨hnd, hpos⟩ := VoteAggregator.buildCounts_invariant votes
  have hlen : VoteAggregator.countsLen (VoteAggregator.buildCounts votes) e.1
      = e.2.1.length := VoteAggregator.countsLen_of_mem _ hnd e hec
  have hocc : VoteAggregator.occCount votes e.1 = e.2.1.length := by
    rw [← hlen, VoteAggregator.countsLen_buildCounts]
  have hissue : (VoteAggregator.mkFinding votes e).issue = e.1 := rfl
  constructor
  · show VoteAggregator.strengthLabel e.2.1.length = _
    rw [hissue, hocc]
    unfold VoteAggregator.strengthLabel
    rfl
  · rw [hissue, hocc]
    exact hpos e hec

/-- A single reviewer reporting a single issue, for the C6 witness and
counterexample. -/
def singleIssueVotes : List (String × ModelVote) :=
  [("Codex",
    { executor := "Codex", vote := .Warn, score := 60, reasoning := "",
      issues := ["bad bug"], suggestions := [] })]

/-- Witness for the amended C6 at one reviewer reporting one issue. -/
theorem finding_consensus_strength_witness :
    ∃ f, f ∈ VoteAggregator.extract_findings singleIssueVotes
    ∧ f.consensus_strength
        = (if 3 ≤ VoteAggregator.occCount singleIssueVotes f.issue then "forte"
           else if 2 ≤ VoteAggregator.occCount singleIssueVotes f.issue then "moderado"
           else "fraco") := by
  refine ⟨(VoteAggregator.extract_findings singleIssueVotes).head (by decide), ?_, ?_⟩
  · exact List.head_mem _
  · exact (finding_consensus_strength singleIssueVotes _
      (List.head_mem _)).1

/-- Counterexample to C6 as stated: with one reviewer reporting one
issue, the produced finding's `consensus_strength` is the Portuguese
"fraco", not the claimed English "weak". -/
theorem finding_consensus_strength_counterexample :
    ∃ f ∈ VoteAggregator.extract_findings singleIssueVotes,
      VoteAggregator.occCount singleIssueVotes f.issue = 1
      ∧ f.consensus_strength ≠ "weak"
      ∧ f.consensus_strength = "fraco" := by decide

-- ═══════════════════════════════════════════════════════════════════
-- Reasoning bank pattern table (`src/reasoning/bank.rs`)
-- ═══════════════════════════════════════════════════════════════════

/-- One row of the `patterns` table.  `pattern_type` is the TEXT the
database stores; counts are SQLite INTEGERs; `confidence` is the REAL
column, modelled as `ℚ` (all stored values are exact small ratios). -/
structure PatternRow where
  id : Int
  pattern_type : String
  code_signature : String
  language : String
  issue_category : String
  description : String
  solution : Option String
  success_count : Int
  failure_count : Int
  confidence : ℚ
  last_seen : String
  created_at : String
deriving DecidableEq, Repr

namespace ReasoningBank

/-- The row transformation of the `UPDATE patterns SET ...` in
`ReasoningBank::update_or_create_pattern` (all right-hand sides read
the old row, as in SQL). -/
def judgeUpdateRow (was_successful : Bool) (now : String) (r : PatternRow) :
    PatternRow :=
  { r with
    success_count := r.success_count + (if was_successful then 1 else 0),
    failure_count := r.failure_count + (if was_successful then 0 else 1),
    last_seen := now,
    confidence := ((r.success_count : ℚ) + (if was_successful then 1 else 0))
                  / ((r.success_count : ℚ) + (r.failure_count : ℚ) + 1) }

/-- Whether a row matches the upsert key `(code_signature,
issue_category)`. -/
def matchesKey (signature category : String) (r : PatternRow) : Bool :=
  r.code_signature == signature && r.issue_category == category

/-- `ReasoningBank::update_or_create_pattern`: update every row with
the key, or, when none matched, insert a fresh row with `confidence =
0.5` and counts reflecting the outcome.  Returns the new table and
whether a row was created. -/
def update_or_create_pattern (rows : List PatternRow)
    (signature language issue : String) (solution : Option String)
    (category : String) (was_successful : Bool) (now : String) (newId : Int) :
    List PatternRow × Bool :=
  if rows.countP (matchesKey signature category) = 0 then
    (rows ++ [{ id := newId,
                pattern_type := if was_successful then "ambiguous" else "anti_pattern",
                code_signature := signature,
                language := language,
                issue_category := category,
                description := issue,
                solution := solution,
                success_count := if was_successful then 1 else 0,
                failure_count := if was_successful then 0 else 1,
                confidence := 1/2,
                last_seen := now,
                created_at := now }], true)
  else
    (rows.map (fun r =>
      if matchesKey signature category r then judgeUpdateRow was_successful now r
      else r), false)

/-- The row transformation of the `UPDATE` in
`ReasoningBank::register_good_pattern`. -/
def goodUpdateRow (now : String) (r : PatternRow) : PatternRow :=
  { r with
    success_count := r.success_count + 1,
    pattern_type := "good_pattern",
    last_seen := now,
    confidence := ((r.success_count : ℚ) + 1)
                  / ((r.success_count : ℚ) + (r.failure_count : ℚ) + 1) }

/-- `ReasoningBank::register_good_pattern`: upsert the GoodPattern row
under `issue_category = "success"`. -/
def register_good_pattern (rows : List PatternRow)
    (signature language : String) (now : String) (newId : Int) :
    List PatternRow :=
  if rows.countP (matchesKey signature "success") = 0 then
    rows ++ [{ id := newId,
               pattern_type := "good_pattern",
               code_signature := signature,
               language := language,
               issue_category := "success",
               description := "Código aprovado sem issues",
               solution := none,
               success_count := 1,
               failure_count := 0,
               confidence := 1,
               last_seen := now,
               created_at := now }]
  else
    rows.map (fun r =>
      if matchesKey signature "success" r then goodUpdateRow now r else r)

/-- The row transformation of
`ReasoningBank::recalculate_all_confidences` (the final step of
`consolidate`): 0.001 and 0.8 are the exact rationals 1/1000 and 4/5. -/
def recalcRow (r : PatternRow) : PatternRow :=
  { r with
    confidence :=
      if r.success_count + r.failure_count = 0 then 1/2
      else (r.success_count : ℚ) / ((r.success_count : ℚ) + (r.failure_count : ℚ)),
    pattern_type :=
      if (r.success_count : ℚ)
           / ((r.success_count : ℚ) + (r.failure_count : ℚ) + 1/1000) > 4/5
      then "good_pattern"
      else if (r.failure_count : ℚ)
           / ((r.success_count : ℚ) + (r.failure_count : ℚ) + 1/1000) > 4/5
      then "anti_pattern"
      else "ambiguous" }

/-- `ReasoningBank::recalculate_all_confidences`. -/
def recalculate_all_confidences (rows : List PatternRow) : List PatternRow :=
  rows.map recalcRow

/-- The confidence invariant of the claim:
`confidence = success / (success + failure)` when the denominator is
non-zero, `0.5` otherwise. -/
def confidenceInvariant (r : PatternRow) : Prop :=
  r.confidence =
    if r.success_count + r.failure_count = 0 then 1/2
    else (r.success_count : ℚ) / ((r.success_count : ℚ) + (r.failure_count : ℚ))

theorem judgeUpdateRow_invariant (r : PatternRow) (was_successful : Bool)
    (now : String) (hs : 0 ≤ r.success_count) (hf : 0 ≤ r.failure_count) :
    confidenceInvariant (judgeUpdateRow was_successful now r) := by
  unfold confidenceInvariant judgeUpdateRow
  cases was_successful with
  | false =>
    simp only [if_false, Bool.false_eq_true]
    rw [if_neg (by omega)]
    push_cast
    ring_nf
  | true =>
    simp only [if_true]
    rw [if_neg (by omega)]
    push_cast
    ring_nf

theorem goodUpdateRow_invariant (r : PatternRow) (now : String)
    (hs : 0 ≤ r.success_count) (hf : 0 ≤ r.failure_count) :
    confidenceInvariant (goodUpdateRow now r) := by
  unfold confidenceInvariant goodUpdateRow
  simp only []
  rw [if_neg (by omega)]
  push_cast
  ring_nf

theorem recalcRow_invariant (r : PatternRow) :
    confidenceInvariant (recalcRow r) := by
  unfold confidenceInvariant recalcRow
  simp only []

end ReasoningBank

/-- Claim C7 (amended): the update path of judge, the GoodPattern
upsert, and consolidate's final recalculation all leave every touched
pattern row with `confidence = success / (success + failure)` (or 0.5
when the denominator is zero); but the *insert* path of judge creates
its row with `confidence = 0.5` while its counts already sum to 1, so
the invariant does not hold for a freshly inserted finding pattern
until the next update or consolidation. -/
theorem pattern_confidence_after_mutations :
    (∀ (rows : List PatternRow) (sig lang issue : String) (sol : Option String)
       (cat : String) (ws : Bool) (now : String) (newId : Int),
       (∀ r ∈ rows, 0 ≤ r.success_count ∧ 0 ≤ r.failure_count) →
       (ReasoningBank.update_or_create_pattern rows sig lang issue sol cat ws now newId).2
          = false →
       ∀ r' ∈ (ReasoningBank.update_or_create_pattern rows sig lang issue sol cat ws now newId).1,
         ReasoningBank.matchesKey sig cat r' = true →
         ReasoningBank.confidenceInvariant r')
    ∧ (∀ (rows : List PatternRow) (sig lang now : String) (newId : Int),
       (∀ r ∈ rows, 0 ≤ r.success_count ∧ 0 ≤ r.failure_count) →
       ∀ r' ∈ ReasoningBank.register_good_pattern rows sig lang now newId,
         ReasoningBank.matchesKey sig "success" r' = true →
         ReasoningBank.confidenceInvariant r')
    ∧ (∀ (rows : List PatternRow),
       ∀ r' ∈ ReasoningBank.recalculate_all_confidences rows,
         ReasoningBank.confidenceInvariant r')
    ∧ (∀ (rows : List PatternRow) (sig lang issue : String) (sol : Option String)
       (cat : String) (ws : Bool) (now : String) (newId : Int),
       (ReasoningBank.update_or_create_pattern rows sig lang issue sol cat ws now newId).2
          = true →
       ∃ r', (ReasoningBank.update_or_create_pattern rows sig lang issue sol cat ws now newId).1
               = rows ++ [r']
             ∧ r'.confidence = 1/2
             ∧ r'.success_count + r'.failure_count = 1) := by
  refine ⟨?_, ?_, ?_, ?_⟩
  · intro rows sig lang issue sol cat ws now newId hnn hupd r' hr' hkey
    unfold ReasoningBank.update_or_create_pattern at hupd hr'
    by_cases hcnt : rows.countP (ReasoningBank.matchesKey sig cat) = 0
    · rw [if_pos hcnt] at hupd
      simp at hupd
    · rw [if_neg hcnt] at hr'
      simp only at hr'
      rcases List.mem_map.mp hr' with ⟨r, hrmem, hreq⟩
      by_cases hm : ReasoningBank.matchesKey sig cat r = true
      · rw [if_pos hm] at hreq
        subst hreq
        exact ReasoningBank.judgeUpdateRow_invariant r ws now
          (hnn r hrmem).1 (hnn r hrmem).2
      · rw [if_neg hm] at hreq
        subst hreq
        exact absurd hkey hm
  · intro rows sig lang now newId hnn r' hr' hkey
    unfold ReasoningBank.register_good_pattern at hr'
    by_cases hcnt : rows.countP (ReasoningBank.matchesKey sig "success") = 0
    · rw [if_pos hcnt] at hr'
      rcases List.mem_append.mp hr' with hmem | hmem
      · have := List.countP_eq_zero.mp hcnt r' hmem
        exact absurd hkey (by simpa using this)
      · have heq := List.mem_singleton.mp hmem
        subst heq
        unfold ReasoningBank.confidenceInvariant
        norm_num
    · rw [if_neg hcnt] at hr'
      rcases List.mem_map.mp hr' with ⟨r, hrmem, hreq⟩
      by_cases hm : ReasoningBank.matchesKey sig "success" r = true
      · rw [if_pos hm] at hreq
        subst hreq
        exact ReasoningBank.goodUpdateRow_invariant r now
          (hnn r hrmem).1 (hnn r hrmem).2
      · rw [if_neg hm] at hreq
        subst hreq
        exact absurd hkey hm
  · intro rows r' hr'
    rcases List.mem_map.mp hr' with ⟨r, _, hreq⟩
    subst hreq
    exact ReasoningBank.recalcRow_invariant r
  · intro rows sig lang issue sol cat ws now newId hcreated
    unfold ReasoningBank.update_or_create_pattern at hcreated ⊢
    by_cases hcnt : rows.countP (ReasoningBank.matchesKey sig cat) = 0
    · rw [if_pos hcnt] at hcreated ⊢
      refine ⟨_, rfl, rfl, ?_⟩
      cases ws <;> simp
    · rw [if_neg hcnt] at hcreated
      simp at hcreated

/-- The row the insert path of judge creates on an empty table for an
unsuccessful evaluation. -/
def sampleInsertedRow : PatternRow :=
  { id := 1, pattern_type := "anti_pattern", code_signature := "sig1",
    language := "rust", issue_category := "logic", description := "bad bug",
    solution := none, success_count := 0, failure_count := 1,
    confidence := 1/2, last_seen := "t0", created_at := "t0" }

/-- Witness for the amended C7: consolidate's recalculation restores
the invariant on the row that the insert path of judge created with
`confidence = 0.5` and counts `(0, 1)`. -/
theorem pattern_confidence_after_mutations_witness :
    ReasoningBank.confidenceInvariant (ReasoningBank.recalcRow sampleInsertedRow) :=
  pattern_confidence_after_mutations.2.2.1 [sampleInsertedRow]
    (ReasoningBank.recalcRow sampleInsertedRow)
    (by simp [ReasoningBank.recalculate_all_confidences])

/-- Counterexample to C7 as stated: the insert path of judge (empty
table, unsuccessful outcome) creates a row whose counts sum to 1 but
whose confidence is 0.5, not `success/(success+failure) = 0`. -/
theorem pattern_confidence_counterexample :
    ∃ r ∈ (ReasoningBank.update_or_create_pattern [] "sig1" "rust" "bad bug"
            none "logic" false "t0" 1).1,
      ¬ (r.success_count + r.failure_count = 0)
      ∧ r.confidence
          ≠ (r.success_count : ℚ) / ((r.success_count : ℚ) + (r.failure_count : ℚ)) := by
  refine ⟨{ id := 1, pattern_type := "anti_pattern", code_signature := "sig1",
            language := "rust", issue_category := "logic", description := "bad bug",
            solution := none, success_count := 0, failure_count := 1,
            confidence := 1/2, last_seen := "t0", created_at := "t0" },
          ?_, by norm_num, by norm_num⟩
  simp [ReasoningBank.update_or_create_pattern]

-- ═══════════════════════════════════════════════════════════════════
-- Executor failure semantics (`src/executors/codex.rs`,
-- `src/mcp/tools.rs`)
-- ═══════════════════════════════════════════════════════════════════

/-- `EvaluationType` in `src/types/requests.rs`. -/
inductive EvaluationType where
  | Plan
  | Code
  | Tests
  | FinalCheck
deriving DecidableEq, Repr

/-- `EvaluationRequest` in `src/types/requests.rs`. -/
structure EvaluationRequest where
  request_id : String
  code : String
  language : String
  evaluation_type : EvaluationType
  context : Option String
  file_path : Option String
deriving DecidableEq, Repr

/-- The `TetradError` variants `CodexExecutor::evaluate` can produce. -/
inductive TetradError where
  | ExecutorTimeout (name : String)
  | ExecutorFailed (name : String) (msg : String)
deriving DecidableEq, Repr

/-- Outcome of `tokio::time::timeout(self.timeout, cmd.output())`
combined with the stdout/stderr parsing pipeline of
`CodexExecutor::evaluate`: a completed subprocess carries the result of
the parse pipeline (a vote, or the message of an `ExecutorFailed`); a
spawn error carries its not-found flag; or the timeout elapsed. -/
inductive CmdOutcome where
  | completed (parsed : Except String ModelVote)
  | ioError (notFound : Bool) (msg : String)
  | timedOut
deriving Repr

/-- The outcome dispatch of `CodexExecutor::evaluate`: timeout becomes
`ExecutorTimeout`; a missing binary becomes a neutral Warn/50 vote with
the "CLI não disponível" reasoning; other spawn errors become
`ExecutorFailed`. -/
def CodexExecutor.evaluate (outcome : CmdOutcome) : Except TetradError ModelVote :=
  match outcome with
  | .completed (.ok v) => .ok v
  | .completed (.error msg) => .error (.ExecutorFailed "Codex" msg)
  | .ioError true _ =>
    .ok { ModelVote.new "Codex" .Warn 50 with reasoning := "Codex CLI não disponível" }
  | .ioError false msg => .error (.ExecutorFailed "Codex" msg)
  | .timedOut => .error (.ExecutorTimeout "Codex")

/-- `ToolHandler::get_vote_if_enabled`: a disabled reviewer contributes
no vote; a successful evaluation contributes its vote; ANY evaluation
error — `ExecutorTimeout` included — contributes a neutral fallback
Warn/50 vote. -/
def get_vote_if_enabled (name : String) (enabled : Bool)
    (evalResult : Except TetradError ModelVote) : Option ModelVote :=
  if !enabled then none
  else
    match evalResult with
    | .ok v => some v
    | .error _ => some (ModelVote.new name .Warn 50)

/-- Claim C2 (amended): a reviewer timeout makes the executor return an
`ExecutorTimeout` error, and `get_vote_if_enabled` then inserts the
neutral fallback Warn/50 vote for that reviewer — the timed-out
reviewer's vote is NOT dropped; a missing binary produces the Warn/50
vote (with "CLI não disponível" reasoning) inside the executor itself,
and every other executor error also falls back to Warn/50. -/
theorem timeout_yields_fallback_vote :
    CodexExecutor.evaluate .timedOut = .error (.ExecutorTimeout "Codex")
    ∧ get_vote_if_enabled "Codex" true (CodexExecutor.evaluate .timedOut)
        = some (ModelVote.new "Codex" .Warn 50)
    ∧ (∀ msg : String,
        get_vote_if_enabled "Codex" true (CodexExecutor.evaluate (.ioError true msg))
          = some { ModelVote.new "Codex" .Warn 50
                   with reasoning := "Codex CLI não disponível" })
    ∧ (∀ e : TetradError,
        get_vote_if_enabled "Codex" true (.error e)
          = some (ModelVote.new "Codex" .Warn 50))
    ∧ (∀ res : Except TetradError ModelVote,
        get_vote_if_enabled "Codex" false res = none) := by
  refine ⟨rfl, rfl, fun msg => rfl, fun e => rfl, fun res => rfl⟩

/-- Counterexample to C2 as stated: on timeout the reviewer's vote is
not dropped — `get_vote_if_enabled` returns a fallback Warn/50 vote,
not `none`. -/
theorem timeout_dropped_vote_counterexample :
    get_vote_if_enabled "Codex" true (CodexExecutor.evaluate .timedOut) ≠ none
    ∧ get_vote_if_enabled "Codex" true (CodexExecutor.evaluate .timedOut)
        = some (ModelVote.new "Codex" .Warn 50) := by
  exact ⟨by decide, rfl⟩

-- ═══════════════════════════════════════════════════════════════════
-- Hook pipeline and evaluate_internal (`src/hooks/mod.rs`,
-- `src/mcp/tools.rs`)
-- ═══════════════════════════════════════════════════════════════════

/-- `HookResult` in `src/hooks/mod.rs`. -/
inductive HookResult where
  | Continue
  | Skip
  | ModifyRequest (request : EvaluationRequest)
deriving DecidableEq, Repr

/-- `HookSystem::run_pre_evaluate`: iterate the PreEvaluate hook
outcomes in registration order; the first non-Continue result
short-circuits. -/
def run_pre_evaluate : List HookResult → HookResult
  | [] => .Continue
  | r :: rest =>
    match r with
    | .Continue => run_pre_evaluate rest
    | .Skip => .Skip
    | .ModifyRequest m => .ModifyRequest m

/-- The observable side effects of `ToolHandler::evaluate_internal`
after the votes are aggregated. -/
inductive EvalEvent where
  | ranPostEvaluate
  | ranOnConsensus
  | ranOnBlock
  | bankJudged (was_successful : Bool)
deriving DecidableEq, Repr

/-- The non-skipped tail of `ToolHandler::evaluate_internal`: collect
votes, aggregate, run post/on-consensus/on-block hooks, judge in the
reasoning bank with `loops_to_consensus = 1`. -/
def evalCore (request : EvaluationRequest)
    (collectVotes : EvaluationRequest → List (String × ModelVote))
    (rule : ConsensusRule) (min_score : Nat) (bankEnabled : Bool)
    (max_loops : Nat) : EvaluationResult × List EvalEvent :=
  let votes := collectVotes request
  let result := VoteAggregator.aggregate votes rule min_score request.request_id
  (result,
   [EvalEvent.ranPostEvaluate]
   ++ (if result.consensus_achieved then [EvalEvent.ranOnConsensus] else [])
   ++ (if result.decision == Decision.Block then [EvalEvent.ranOnBlock] else [])
   ++ (if bankEnabled
       then [EvalEvent.bankJudged (result.consensus_achieved && decide (1 ≤ max_loops))]
       else []))

/-- `ToolHandler::evaluate_internal`, with the PreEvaluate hook
outcomes and the concurrent vote collection passed as parameters: a
`Skip` returns the synthetic success immediately — before votes,
post-evaluation hooks and the reasoning bank; a `ModifyRequest`
replaces the request. -/
def evaluate_internal (preHooks : List HookResult)
    (request : EvaluationRequest)
    (collectVotes : EvaluationRequest → List (String × ModelVote))
    (rule : ConsensusRule) (min_score : Nat) (bankEnabled : Bool)
    (max_loops : Nat) : EvaluationResult × List EvalEvent :=
  match run_pre_evaluate preHooks with
  | .Skip =>
    (EvaluationResult.success request.request_id 100 "Skipped by hook", [])
  | .ModifyRequest modified =>
    evalCore modified collectVotes rule min_score bankEnabled max_loops
  | .Continue =>
    evalCore request collectVotes rule min_score bankEnabled max_loops

/-- The certification precondition of `ToolHandler::handle_final_check`. -/
def meets_requirements (result : EvaluationResult) (min_score : Nat) : Bool :=
  result.consensus_achieved && decide (min_score ≤ result.score)

/-- Claim C10 (amended): when the PreEvaluate hook chain results in
`Skip`, `evaluate_internal` returns a synthetic result with decision
Pass, score 100, `consensus_achieved = true`, an empty vote map and no
findings, and it returns immediately: no post-evaluate, on-consensus or
on-block hook runs and the Reasoning Bank never judges the evaluation;
the synthetic result satisfies `final_check`'s `meets_requirements`
whenever `min_score ≤ 100`. -/
theorem skip_hook_synthetic_success (preHooks : List HookResult)
    (request : EvaluationRequest)
    (collectVotes : EvaluationRequest → List (String × ModelVote))
    (rule : ConsensusRule) (min_score : Nat) (bankEnabled : Bool)
    (max_loops : Nat) (hskip : run_pre_evaluate preHooks = .Skip) :
    (evaluate_internal preHooks request collectVotes rule min_score bankEnabled
        max_loops).1
      = EvaluationResult.success request.request_id 100 "Skipped by hook"
    ∧ (evaluate_internal preHooks request collectVotes rule min_score bankEnabled
        max_loops).1.decision = .Pass
    ∧ (evaluate_internal preHooks request collectVotes rule min_score bankEnabled
        max_loops).1.score = 100
    ∧ (evaluate_internal preHooks request collectVotes rule min_score bankEnabled
        max_loops).1.consensus_achieved = true
    ∧ (evaluate_internal preHooks request collectVotes rule min_score bankEnabled
        max_loops).1.votes = []
    ∧ (evaluate_internal preHooks request collectVotes rule min_score bankEnabled
        max_loops).1.findings = []
    ∧ (evaluate_internal preHooks request collectVotes rule min_score bankEnabled
        max_loops).2 = []
    ∧ (min_score ≤ 100 →
        meets_requirements
          (evaluate_internal preHooks request collectVotes rule min_score bankEnabled
            max_loops).1 min_score = true) := by
  unfold evaluate_internal
  rw [hskip]
  refine ⟨rfl, rfl, rfl, rfl, rfl, rfl, rfl, ?_⟩
  intro hle
  simp [meets_requirements, EvaluationResult.success, hle]

/-- A concrete request for the C10 witness and counterexample. -/
def sampleRequest : EvaluationRequest :=
  { request_id := "req-1", code := "fn main()", language := "rust",
    evaluation_type := .Code, context := none, file_path := none }

/-- Witness for the amended C10 with a single Skip hook. -/
theorem skip_hook_synthetic_success_witness :
    (evaluate_internal [HookResult.Skip] sampleRequest (fun _ => []) .Strong 70
        true 3).1
      = EvaluationResult.success "req-1" 100 "Skipped by hook"
    ∧ (evaluate_internal [HookResult.Skip] sampleRequest (fun _ => []) .Strong 70
        true 3).2 = [] :=
  ⟨(skip_hook_synthetic_success [HookResult.Skip] sampleRequest (fun _ => [])
      .Strong 70 true 3 (by decide)).1,
   (skip_hook_synthetic_success [HookResult.Skip] sampleRequest (fun _ => [])
      .Strong 70 true 3 (by decide)).2.2.2.2.2.2.1⟩

/-- Counterexample to C10 as stated: a hook-skipped evaluation has
`consensus_achieved = true` yet the evaluation returns before the
on-consensus hooks and before the Reasoning Bank's judge — neither
event occurs. -/
theorem skip_hook_reaches_consensus_counterexample :
    run_pre_evaluate [HookResult.Skip] = .Skip
    ∧ (evaluate_internal [HookResult.Skip] sampleRequest (fun _ => []) .Strong 70
        true 3).1.consensus_achieved = true
    ∧ EvalEvent.ranOnConsensus
        ∉ (evaluate_internal [HookResult.Skip] sampleRequest (fun _ => []) .Strong 70
            true 3).2
    ∧ (∀ b : Bool, EvalEvent.bankJudged b
        ∉ (evaluate_internal [HookResult.Skip] sampleRequest (fun _ => []) .Strong 70
            true 3).2) := by decide

-- ═══════════════════════════════════════════════════════════════════
-- MCP JSON-RPC layer (`src/mcp/protocol.rs`, `src/mcp/server.rs`)
--
-- `serde_json::Value` is abstracted as a type parameter `V`; the
-- effectful pieces of the dispatch (serialization of the initialize
-- result and tool list, params deserialization, and the tool handler
-- itself) are collected into a `ServerOracle`.  All theorems quantify
-- over them.
-- ═══════════════════════════════════════════════════════════════════

/-- `JsonRpcId` in `src/mcp/protocol.rs`: a number or a string. -/
inductive JsonRpcId where
  | num (n : Int)
  | str (s : String)
deriving DecidableEq, Repr

/-- `JsonRpcRequest` in `src/mcp/protocol.rs`. -/
structure JsonRpcRequest (V : Type) where
  jsonrpc : String
  id : Option JsonRpcId
  method : String
  params : Option V

/-- `JsonRpcError` in `src/mcp/protocol.rs`. -/
structure JsonRpcError (V : Type) where
  code : Int
  message : String
  data : Option V

/-- `JsonRpcError::method_not_found` (code -32601). -/
def JsonRpcError.method_not_found (V : Type) (method : String) : JsonRpcError V :=
  { code := -32601, message := "Method not found: " ++ method, data := none }

/-- `JsonRpcError::invalid_params` (code -32602). -/
def JsonRpcError.invalid_params (V : Type) (message : String) : JsonRpcError V :=
  { code := -32602, message := message, data := none }

/-- `JsonRpcResponse` in `src/mcp/protocol.rs`. -/
structure JsonRpcResponse (V : Type) where
  jsonrpc : String
  id : Option JsonRpcId
  result : Option V
  error : Option (JsonRpcError V)

/-- `JsonRpcResponse::success`: fixes `jsonrpc = "2.0"`. -/
def JsonRpcResponse.success {V : Type} (id : Option JsonRpcId) (result : V) :
    JsonRpcResponse V :=
  { jsonrpc := "2.0", id := id, result := some result, error := none }

/-- `JsonRpcResponse::error`: fixes `jsonrpc = "2.0"`. -/
def JsonRpcResponse.mkError {V : Type} (id : Option JsonRpcId)
    (error : JsonRpcError V) : JsonRpcResponse V :=
  { jsonrpc := "2.0", id := id, result := none, error := some error }

/-- `CallToolParams` in `src/mcp/protocol.rs`. -/
structure CallToolParams (V : Type) where
  name : String
  arguments : V

/-- The effectful collaborators of `McpServer::handle_request`. -/
structure ServerOracle (V : Type) where
  /-- `serde_json::to_value(InitializeResult::default())` (or its
  `json!(\x7b\x7d)` fallback). -/
  initializeResult : V
  /-- `json!(\x7b\x7d)`, the `initialized` acknowledgement body. -/
  emptyObj : V
  /-- `json!(null)`, the `shutdown` response body. -/
  nullVal : V
  /-- the serialized `ListToolsResult`. -/
  toolsListResult : V
  /-- `serde_json::from_value::<CallToolParams>`. -/
  parseCallParams : V → Except String (CallToolParams V)
  /-- `ToolHandler::handle_tool_call` followed by `serde_json::to_value`. -/
  callTool : String → V → V

/-- `McpServer::handle_request`: dispatch on the method name; every
branch builds its response with the request's own id. -/
def handle_request {V : Type} (o : ServerOracle V) (req : JsonRpcRequest V) :
    JsonRpcResponse V :=
  match req.method with
  | "initialize" => JsonRpcResponse.success req.id o.initializeResult
  | "initialized" => JsonRpcResponse.success req.id o.emptyObj
  | "shutdown" => JsonRpcResponse.success req.id o.nullVal
  | "tools/list" => JsonRpcResponse.success req.id o.toolsListResult
  | "tools/call" =>
    match req.params with
    | some p =>
      match o.parseCallParams p with
      | .ok params =>
        JsonRpcResponse.success req.id (o.callTool params.name params.arguments)
      | .error e =>
        JsonRpcResponse.mkError req.id
          (JsonRpcError.invalid_params V ("Invalid params: " ++ e))
    | none =>
      JsonRpcResponse.mkError req.id (JsonRpcError.invalid_params V "Missing params")
  | _ => JsonRpcResponse.mkError req.id (JsonRpcError.method_not_found V req.method)

/-- One iteration of `McpServer::run` after a message is read: the
request is handled, and the response is written iff the request carried
an id (a non-notification). -/
def serverRespond {V : Type} (o : ServerOracle V) (req : JsonRpcRequest V) :
    Option (JsonRpcResponse V) :=
  if req.id.isNone then none else some (handle_request o req)

/-- Claim C9: every id-carrying framed request gets exactly one
response, whose id equals the request's id and whose jsonrpc field is
"2.0" and which carries a result or an error — also for unknown methods
(a -32601 error) and for `tools/call` without params (a -32602 error);
a message without an id gets no response. -/
theorem jsonrpc_response_discipline {V : Type} (o : ServerOracle V)
    (req : JsonRpcRequest V) :
    (req.id = none → serverRespond o req = none)
    ∧ (∀ i, req.id = some i →
        ∃ resp, serverRespond o req = some resp
          ∧ resp.id = some i
          ∧ resp.jsonrpc = "2.0"
          ∧ (resp.result.isSome ∨ resp.error.isSome))
    ∧ (req.method ∉ ["initialize", "initialized", "shutdown",
                     "tools/list", "tools/call"] →
        (handle_request o req).error
          = some (JsonRpcError.method_not_found V req.method))
    ∧ (req.method = "tools/call" → req.params = none →
        (handle_request o req).error
          = some (JsonRpcError.invalid_params V "Missing params")) := by
  have hid : (handle_request o req).id = req.id := by
    unfold handle_request
    repeat' split
    all_goals rfl
  have hver : (handle_request o req).jsonrpc = "2.0" := by
    unfold handle_request
    repeat' split
    all_goals rfl
  have hpayload : (handle_request o req).result.isSome
      ∨ (handle_request o req).error.isSome := by
    unfold handle_request
    repeat' split
    all_goals simp [JsonRpcResponse.success, JsonRpcResponse.mkError]
  refine ⟨?_, ?_, ?_, ?_⟩
  · intro h
    unfold serverRespond
    rw [h]
    rfl
  · intro i h
    refine ⟨handle_request o req, ?_, by rw [hid, h], hver, hpayload⟩
    unfold serverRespond
    rw [h]
    rfl
  · intro hunk
    unfold handle_request
    split
    · exact absurd (by simp_all) hunk
    · exact absurd (by simp_all) hunk
    · exact absurd (by simp_all) hunk
    · exact absurd (by simp_all) hunk
    · exact absurd (by simp_all) hunk
    · rfl
  · intro hm hp
    unfold handle_request
    rw [hm] at *
    simp only [hp]
    rfl

/-- A concrete oracle over `V := Nat` for the C9 witness. -/
def sampleOracle : ServerOracle Nat :=
  { initializeResult := 1, emptyObj := 2, nullVal := 3, toolsListResult := 4,
    parseCallParams := fun v => .ok { name := "tetrad_status", arguments := v },
    callTool := fun _ v => v }

/-- Witness for C9: the `initialize` request with id 1 receives a
response with id 1 and jsonrpc "2.0". -/
theorem jsonrpc_response_discipline_witness :
    ∃ resp,
      serverRespond sampleOracle
        { jsonrpc := "2.0", id := some (.num 1), method := "initialize",
          params := none } = some resp
      ∧ resp.id = some (.num 1)
      ∧ resp.jsonrpc = "2.0"
      ∧ (resp.result.isSome ∨ resp.error.isSome) :=
  (jsonrpc_response_discipline sampleOracle
    { jsonrpc := "2.0", id := some (.num 1), method := "initialize",
      params := none }).2.1 (.num 1) rfl

end Tetrad
